import Mathlib

/-!
Verification of the spreadsheet-ingestion / chart-derivation pipeline of the
Excel-dashboard repository: column type inference (`analyzeColumnType`),
tabular ingestion (`processExcelFile`), chart series building
(`processChartData`) and descriptive statistics (`calculateStatistics`),
as implemented in `src/server/routes/upload.js` and
`src/server/models/Analysis.js`.

JavaScript numbers are modelled as exact rationals (`ℚ`); the model has no
NaN/Infinity values (the `!isNaN` guards of the source are therefore
vacuously true on `vnum` values and are noted where they occur).
-/

/-- A raw JavaScript cell value as it occurs in parsed sheet data:
`undefined`, `null`, a number, a boolean, or a string. -/
inductive Val
  | vundef
  | vnull
  | vnum (q : ℚ)
  | vbool (b : Bool)
  | vstr (s : String)
  deriving DecidableEq, Repr

/-- The numeric payload of a value that satisfies
`typeof val === 'number'` (our model has no NaN). -/
def numVal : Val → Option ℚ
  | Val.vnum q => some q
  | _ => none

/-- Decimal value of a list of ASCII digit characters. -/
def digitsToNat (ds : List Char) : ℕ :=
  ds.foldl (fun a c => 10 * a + (c.toNat - 48)) 0

/-- Model of JavaScript `parseFloat` on a string: skip leading whitespace,
optional sign, then the longest prefix that is a decimal literal
(integer digits, optional fraction, optional exponent whose digits must be
nonempty to be consumed).  `none` models the NaN result.  The `Infinity`
literal is outside the modelled value domain (no claim exercises it). -/
def jsParseFloat (s : String) : Option ℚ :=
  let cs := s.toList.dropWhile (fun c => c.isWhitespace)
  let signed : ℚ × List Char :=
    match cs with
    | '-' :: t => (-1, t)
    | '+' :: t => (1, t)
    | _ => (1, cs)
  let ip := signed.2.takeWhile (fun c => c.isDigit)
  let rest1 := signed.2.dropWhile (fun c => c.isDigit)
  let fpRest : List Char × List Char :=
    match rest1 with
    | '.' :: t => (t.takeWhile (fun c => c.isDigit), t.dropWhile (fun c => c.isDigit))
    | _ => ([], rest1)
  let fp := fpRest.1
  if ip.isEmpty ∧ fp.isEmpty then none
  else
    let mant : ℚ := (digitsToNat ip : ℚ) + (digitsToNat fp : ℚ) / (10 : ℚ) ^ fp.length
    let expPart : ℚ :=
      match fpRest.2 with
      | c :: t =>
        if c = 'e' ∨ c = 'E' then
          match t with
          | '-' :: u =>
            let ed := u.takeWhile (fun cc => cc.isDigit)
            if ed.isEmpty then 1 else 1 / (10 : ℚ) ^ digitsToNat ed
          | '+' :: u =>
            let ed := u.takeWhile (fun cc => cc.isDigit)
            if ed.isEmpty then 1 else (10 : ℚ) ^ digitsToNat ed
          | _ =>
            let ed := fpRest.2.tail.takeWhile (fun cc => cc.isDigit)
            if ed.isEmpty then 1 else (10 : ℚ) ^ digitsToNat ed
        else 1
      | [] => 1
    some (signed.1 * mant * expPart)

/-- Model of the idiom `parseFloat(v) || 0` used throughout the series
builder: a number parses to itself (`parseFloat` of a finite number's
string form round-trips), a non-parseable string / `null` / `undefined` /
boolean gives NaN which `|| 0` turns into `0` (a parsed `0` is also kept
as `0` by `|| 0`). -/
def parseFloatOr0 : Val → ℚ
  | Val.vnum q => q
  | Val.vstr s => (jsParseFloat s).getD 0
  | _ => 0

/-- Decimal string of an integer, as JavaScript prints integral numbers. -/
def intToDecString (n : ℤ) : String :=
  if n < 0 then "-" ++ toString n.natAbs else toString n.natAbs

/-- Model of JavaScript number-to-string conversion.  Integral values print
exactly as their decimal form; for non-integral values JavaScript prints the
shortest form of the underlying binary double, which has no exact rational
counterpart — the fallback branch is an approximation (no claim depends on
the string form of a non-integral number). -/
def jsNumToString (q : ℚ) : String :=
  if q.den = 1 then intToDecString q.num else toString q

/-- Model of JavaScript `String(v)` coercion used when a value becomes an
object property key. -/
def jsToString : Val → String
  | Val.vundef => "undefined"
  | Val.vnull => "null"
  | Val.vnum q => jsNumToString q
  | Val.vbool b => if b then "true" else "false"
  | Val.vstr s => s

/-! ### JavaScript plain objects

A plain object is modelled as an insertion-ordered association list with
unique keys: assigning to an existing key overwrites in place, assigning a
fresh key appends.  `Object.keys` enumerates own keys with canonical
array-index keys first in ascending numeric order, then the remaining keys
in insertion order (ECMAScript ordinary own-property-keys order). -/

/-- Lookup of an own property. -/
def objGet {α : Type} : List (String × α) → String → Option α
  | [], _ => none
  | p :: t, k => if p.1 = k then some p.2 else objGet t k

/-- Property assignment: overwrite in place when present, append when absent. -/
def objSet {α : Type} (o : List (String × α)) (k : String) (v : α) : List (String × α) :=
  if (objGet o k).isSome then
    o.map (fun p => if p.1 = k then (k, v) else p)
  else
    o ++ [(k, v)]

/-- Whether a string is a canonical array index: the canonical decimal form
of an integer in `[0, 2^32 - 2]`. -/
def isArrayIndex (s : String) : Bool :=
  let cs := s.toList
  (!cs.isEmpty) && cs.all (fun c => c.isDigit)
    && (cs = ['0'] ∨ cs.head? ≠ some '0')
    && digitsToNat cs < 4294967295

/-- Numeric value of an array-index key (keys are canonical, so this is
injective on them and `toString` inverts it). -/
def digitsOfKey (k : String) : ℕ := digitsToNat k.toList

/-- ECMAScript own-property-key enumeration order applied to a key list:
array-index keys first, ascending; then the rest in the given (insertion)
order. -/
def jsKeyOrder (ks : List String) : List String :=
  (((ks.filter (fun k => isArrayIndex k)).map digitsOfKey).insertionSort (· ≤ ·)).map
      (fun n => toString n)
    ++ ks.filter (fun k => !isArrayIndex k)

/-- `Object.keys` on the association-list object model. -/
def objKeys {α : Type} (o : List (String × α)) : List String :=
  jsKeyOrder (o.map Prod.fst)

/-! ### Column Type Inferencer (`analyzeColumnType`, upload.js lines 42 to 66) -/

/-- Days in a month under the proleptic Gregorian rules ECMAScript uses. -/
def daysInMonth (y m : ℕ) : ℕ :=
  if m = 2 then
    if y % 4 = 0 ∧ (y % 100 ≠ 0 ∨ y % 400 = 0) then 29 else 28
  else if m = 4 ∨ m = 6 ∨ m = 9 ∨ m = 11 then 30
  else 31

/-- Value of a two-digit pair. -/
def twoDigits (a b : Char) : ℕ := 10 * (a.toNat - 48) + (b.toNat - 48)

/-- Whether a character-list prefix matches `\d{4}-\d{2}-\d{2}`. -/
def matchesIsoAt : List Char → Bool
  | y1 :: y2 :: y3 :: y4 :: '-' :: m1 :: m2 :: '-' :: d1 :: d2 :: _ =>
    [y1, y2, y3, y4, m1, m2, d1, d2].all (fun c => c.isDigit)
  | _ => false

/-- Whether a character-list prefix matches `\d{2}\/\d{2}\/\d{4}`. -/
def matchesSlashAt : List Char → Bool
  | a1 :: a2 :: '/' :: b1 :: b2 :: '/' :: c1 :: c2 :: c3 :: c4 :: _ =>
    [a1, a2, b1, b2, c1, c2, c3, c4].all (fun c => c.isDigit)
  | _ => false

/-- Hour admissibility of an ISO time: hours 00..23, or the special
midnight-24 form `24:00[:00[.0…]]` the Date Time String Format allows. -/
def hourOk (hh mm ss : ℕ) (fracZero : Bool) : Bool :=
  hh ≤ 23 || (hh = 24 && mm = 0 && ss = 0 && fracZero)

/-- ECMAScript time-zone offset part of a Date Time String: absent, `Z`,
or `±HH:mm` with hours 00..23 and minutes 00..59. -/
def validOffset : List Char → Bool
  | [] => true
  | ['Z'] => true
  | [sgn, h1, h2, ':', m1, m2] =>
    (sgn = '+' || sgn = '-') && [h1, h2, m1, m2].all (fun c => c.isDigit)
      && twoDigits h1 h2 ≤ 23 && twoDigits m1 m2 ≤ 59
  | _ => false

/-- ECMAScript time part of a Date Time String (what follows the `T`):
`HH:mm`, optionally `:ss`, optionally a nonempty digit fraction, then an
optional offset. -/
def validTime (cs : List Char) : Bool :=
  match cs with
  | h1 :: h2 :: ':' :: m1 :: m2 :: rest =>
    ([h1, h2, m1, m2].all (fun c => c.isDigit)) && twoDigits m1 m2 ≤ 59 &&
    (match rest with
     | ':' :: s1 :: s2 :: rest2 =>
       s1.isDigit && s2.isDigit && twoDigits s1 s2 ≤ 59 &&
       (match rest2 with
        | '.' :: rest3 =>
          (!(rest3.takeWhile (fun c => c.isDigit)).isEmpty)
            && validOffset (rest3.dropWhile (fun c => c.isDigit))
            && hourOk (twoDigits h1 h2) (twoDigits m1 m2) (twoDigits s1 s2)
                ((rest3.takeWhile (fun c => c.isDigit)).all (fun c => c = '0'))
        | _ =>
          validOffset rest2
            && hourOk (twoDigits h1 h2) (twoDigits m1 m2) (twoDigits s1 s2) true)
     | _ => validOffset rest && hourOk (twoDigits h1 h2) (twoDigits m1 m2) 0 true)
  | _ => false

/-- The `-MM-DD` part of a Date Time String after the year, with month
1..12 and day within the month, followed by nothing or by `T` and a valid
time. -/
def validDateBody (y : ℕ) : List Char → Bool
  | '-' :: m1 :: m2 :: '-' :: d1 :: d2 :: rest =>
    [m1, m2, d1, d2].all (fun c => c.isDigit) &&
    (let m := twoDigits m1 m2
     let d := twoDigits d1 d2
     1 ≤ m && m ≤ 12 && 1 ≤ d && d ≤ daysInMonth y m) &&
    (match rest with
     | [] => true
     | 'T' :: ts => validTime ts
     | _ => false)
  | _ => false

/-- Whether the string is a full-date ECMAScript Date Time String:
`YYYY-MM-DD`, or an expanded-year `±YYYYYY-MM-DD` (with `-000000`
excluded), optionally followed by `T` and a time with optional offset.
The format's day-less forms (`YYYY`, `YYYY-MM`) are also valid Dates but
contain no `\d{4}-\d{2}-\d{2}` or slash-triple substring, so they can
never pass the regex gate and are irrelevant to evidence counting; they
are left out of the model.  Leap-day validity for negative expanded years
uses the proleptic rules on the year magnitude. -/
def isoDateTimeValid (s : String) : Bool :=
  match s.toList with
  | '+' :: y1 :: y2 :: y3 :: y4 :: y5 :: y6 :: rest =>
    [y1, y2, y3, y4, y5, y6].all (fun c => c.isDigit)
      && validDateBody (digitsToNat [y1, y2, y3, y4, y5, y6]) rest
  | '-' :: y1 :: y2 :: y3 :: y4 :: y5 :: y6 :: rest =>
    [y1, y2, y3, y4, y5, y6].all (fun c => c.isDigit)
      && digitsToNat [y1, y2, y3, y4, y5, y6] ≠ 0
      && validDateBody (digitsToNat [y1, y2, y3, y4, y5, y6]) rest
  | y1 :: y2 :: y3 :: y4 :: rest =>
    [y1, y2, y3, y4].all (fun c => c.isDigit)
      && validDateBody (digitsToNat [y1, y2, y3, y4]) rest
  | _ => false

/-- Whether the string is exactly a slash triple `NN/NN/NNNN` that the
host legacy date parser accepts.  ECMAScript leaves non-ISO forms
implementation-defined; the dominant engine behaviour is modelled: the
triple is read as month/day/year, the month must be 1..12, and any
two-digit day yields a date (out-of-range days roll over).  Further
legacy leniencies (extra words, times after the triple) are likewise
implementation-defined and outside the model. -/
def usSlashDateValid (s : String) : Bool :=
  match s.toList with
  | [a1, a2, '/', b1, b2, '/', c1, c2, c3, c4] =>
    [a1, a2, b1, b2, c1, c2, c3, c4].all (fun c => c.isDigit)
      && (let m := twoDigits a1 a2
          1 ≤ m && m ≤ 12)
  | _ => false

/-- Model of the validity test `!isNaN(new Date(value).getTime())` for the
strings this pipeline can classify as dates: the ECMAScript-mandated Date
Time String Format plus the de-facto slash triple. -/
def jsDateValid (s : String) : Bool :=
  isoDateTimeValid s || usSlashDateValid s

/-- The unanchored regex test
`value.match(/\d{4}-\d{2}-\d{2}|\d{2}\/\d{2}\/\d{4}/)`: some suffix
position starts a match of either alternative. -/
def dateRegexTest (s : String) : Bool :=
  s.toList.tails.any (fun t => matchesIsoAt t || matchesSlashAt t)

inductive ColType
  | number
  | date
  | string
  deriving DecidableEq, Repr

/-- One step of the evidence-counting loop of `analyzeColumnType`
(state is the pair `(numberCount, dateCount)`), translated clause by
clause: skip `null`/`undefined`/`''`; an actual number counts as number
evidence (no NaN in the model); a string counts as date evidence when the
`new Date` parse is valid and the regex matches, otherwise as number
evidence when `parseFloat` does not yield NaN; anything else contributes
nothing. -/
def evidenceStep (counts : ℕ × ℕ) (value : Val) : ℕ × ℕ :=
  if value = Val.vnull ∨ value = Val.vundef ∨ value = Val.vstr "" then counts
  else
    match value with
    | Val.vnum _ => (counts.1 + 1, counts.2)
    | Val.vstr s =>
      if jsDateValid s && dateRegexTest s then (counts.1, counts.2 + 1)
      else if (jsParseFloat s).isSome then (counts.1 + 1, counts.2)
      else counts
    | _ => counts

/-- `analyzeColumnType` from upload.js lines 42 to 66: examine the first 10
values, accumulate number and date evidence, then decide
number / date / string. -/
def analyzeColumnType (values : List Val) : ColType :=
  if values.length = 0 then ColType.string
  else
    let counts := (values.take 10).foldl evidenceStep (0, 0)
    if counts.1 > counts.2 ∧ counts.1 > 0 then ColType.number
    else if counts.2 > 0 then ColType.date
    else ColType.string

inductive Evidence
  | num
  | date
  deriving DecidableEq, Repr

/-- The evidence classification of one examined value, as a standalone
function (the loop in the source accumulates exactly this). -/
def evidenceOf (v : Val) : Option Evidence :=
  if v = Val.vnull ∨ v = Val.vundef ∨ v = Val.vstr "" then none
  else
    match v with
    | Val.vnum _ => some Evidence.num
    | Val.vstr s =>
      if jsDateValid s && dateRegexTest s then some Evidence.date
      else if (jsParseFloat s).isSome then some Evidence.num
      else none
    | _ => none

/-- Number-evidence count over the examined (first 10) values. -/
def numberEvidence (values : List Val) : ℕ :=
  ((values.take 10).filter (fun v => evidenceOf v = some Evidence.num)).length

/-- Date-evidence count over the examined (first 10) values. -/
def dateEvidence (values : List Val) : ℕ :=
  ((values.take 10).filter (fun v => evidenceOf v = some Evidence.date)).length

/-! ### Tabular Ingestor (`processExcelFile`, upload.js lines 68 to 119)

The workbook read and `sheet_to_json` conversion are external (the XLSX
library); the model starts from their output `jsonData`: the sheet as a
list of rows, each row a list of raw cell values, the first row being the
header row. -/

inductive IngestErr
  | emptySheet
  | noHeaders
  deriving DecidableEq, Repr

structure ColumnDesc where
  name : Val
  ctype : ColType
  sampleValues : List Val
  deriving DecidableEq, Repr

structure SheetResult where
  data : List (List (String × Val))
  columns : List ColumnDesc
  rowCount : ℕ
  deriving DecidableEq, Repr

/-- The cell a header position reads from a data row:
`row[index] !== undefined ? row[index] : null` (an out-of-range index reads
`undefined` in JavaScript). -/
def cellAt (row : List Val) (index : ℕ) : Val :=
  match row.get? index with
  | some v => if v = Val.vundef then Val.vnull else v
  | none => Val.vnull

/-- Conversion of one data row to a Row object
(`headers.forEach((header, index) => { obj[header] = ... })`); the header
value is coerced to a string when used as a property key. -/
def rowToObj (headers : List Val) (row : List Val) : List (String × Val) :=
  headers.enum.foldl (fun obj p => objSet obj (jsToString p.2) (cellAt row p.1)) []

/-- The column descriptor built for one header (upload.js lines 99 to 109):
collect the column's values from the row objects (reading the property the
string-coerced header names), drop `null`/`undefined`, take the first five
as samples and infer the type; `name` keeps the raw header value. -/
def columnFor (data : List (List (String × Val))) (header : Val) : ColumnDesc :=
  let columnValues :=
    (data.map (fun obj => (objGet obj (jsToString header)).getD Val.vundef)).filter
      (fun v => v ≠ Val.vnull ∧ v ≠ Val.vundef)
  { name := header
    ctype := analyzeColumnType columnValues
    sampleValues := columnValues.take 5 }

/-- `processExcelFile` from upload.js lines 68 to 119, starting at the
parsed `jsonData` (file I/O and the XLSX parse are external collaborators):
fail on an empty sheet, fail on an empty header row, zip each data row to a
Row object, build the column descriptors and count the data rows. -/
def processExcelFile (jsonData : List (List Val)) : Except IngestErr SheetResult :=
  if jsonData.length = 0 then Except.error IngestErr.emptySheet
  else
    let headers := jsonData.headD []
    let rows := jsonData.tail
    if headers.length = 0 then Except.error IngestErr.noHeaders
    else
      let data := rows.map (fun row => rowToObj headers row)
      Except.ok
        { data := data
          columns := headers.map (fun h => columnFor data h)
          rowCount := rows.length }

/-! ### Chart Series Builder (`processChartData`, Analysis.js lines 276 to 338)

Styling fields (colors, fill, tension) are carried by no claim and are
omitted from the modelled output; labels, dataset values and scatter points
are modelled exactly. -/

/-- A row object as the series builder consumes it: a total lookup from
column name to raw value (`undefined` for absent columns). -/
def Row : Type := String → Val

inductive ChartType
  | bar
  | line
  | pie
  | scatter
  | area
  deriving DecidableEq, Repr

inductive ChartErr
  | emptyDataset
  deriving DecidableEq, Repr

structure ChartData where
  labels : List Val
  sdata : List ℚ
  points : List (ℚ × ℚ)
  deriving DecidableEq, Repr

/-- One step of the pie grouping loop (Analysis.js lines 299 to 308): the
x-value is coerced to a property key; the guard `if (groupedData[xValue])`
is a truthiness test, so an absent key or a stored `0` takes the assignment
branch and a stored nonzero sum takes the accumulation branch. -/
def pieStep (xcol ycol : String) (acc : List (String × ℚ)) (row : Row) : List (String × ℚ) :=
  let xValue := jsToString (row xcol)
  let yValue := parseFloatOr0 (row ycol)
  match objGet acc xValue with
  | some cur => if cur ≠ 0 then objSet acc xValue (cur + yValue) else objSet acc xValue yValue
  | none => objSet acc xValue yValue

/-- The grouped object the pie branch builds. -/
def pieFold (rows : List Row) (xcol ycol : String) : List (String × ℚ) :=
  rows.foldl (pieStep xcol ycol) []

/-- `processChartData` from Analysis.js lines 276 to 338: throw on an empty
row list; pie groups by coerced x-value and sums parsed y-values, reading
the result back in `Object.keys` / `Object.values` order; scatter maps each
row to a point; bar / line / area truncate to the first 50 rows and map
raw x-values to labels and parsed y-values to data. -/
def processChartData (data : List Row) (xcol ycol : String) (chartType : ChartType) :
    Except ChartErr ChartData :=
  if data.length = 0 then Except.error ChartErr.emptyDataset
  else
    match chartType with
    | ChartType.pie =>
      let groupedData := pieFold data xcol ycol
      Except.ok
        { labels := (objKeys groupedData).map Val.vstr
          sdata := (objKeys groupedData).map (fun k => (objGet groupedData k).getD 0)
          points := [] }
    | ChartType.scatter =>
      Except.ok
        { labels := []
          sdata := []
          points := data.map (fun row => (parseFloatOr0 (row xcol), parseFloatOr0 (row ycol))) }
    | _ =>
      let processedData := data.take 50
      Except.ok
        { labels := processedData.map (fun row => row xcol)
          sdata := processedData.map (fun row => parseFloatOr0 (row ycol))
          points := [] }

/-! ### Descriptive Statistics Calculator (`calculateStatistics`,
Analysis.js lines 235 to 274)

`numbers.sort((a, b) => a - b)` sorts the `numbers` array **in place** and
returns it, so from that line on the variable `numbers` itself holds the
ascending-sorted values: the sum, the mode scan and the squared-difference
map all run over the sorted array (only the mode scan is order-sensitive).
-/

structure Stats where
  mean : ℚ
  median : ℚ
  mode : ℚ
  range : ℚ
  standardDeviation : ℚ
  deriving DecidableEq, Repr

/-- Model of `parseFloat(x.toFixed(2))` for an exact rational, per the
ECMAScript `toFixed` algorithm: a negative argument is negated first (the
sign is emitted separately), then the integer n closest to 100·x is
chosen, ties to the larger n — so ties round away from zero. -/
def jsToFixed2 (q : ℚ) : ℚ :=
  if q < 0 then -(((⌊100 * (-q) + 1 / 2⌋ : ℤ) : ℚ) / 100)
  else ((⌊100 * q + 1 / 2⌋ : ℤ) : ℚ) / 100

/-- Model of `parseFloat(Math.sqrt(q).toFixed(2))` for `q ≥ 0`, computed
exactly: with `x = 200·√q`, the rounded value is `(⌊x⌋ + 1) / 2 / 100`
using `⌊(x+1)/2⌋ = (⌊x⌋+1)/2`, and `⌊x⌋` is obtained by integer square
root: `⌊200·√(a/b)⌋ = ⌊√(40000·a·b)⌋ / b`. -/
def sqrtToFixed2 (q : ℚ) : ℚ :=
  let n200 : ℕ := Nat.sqrt (40000 * q.num.toNat * q.den) / q.den
  (((n200 + 1) / 2 : ℕ) : ℚ) / 100

/-- One step of the mode-finding loop (Analysis.js lines 253 to 259): bump
the frequency of the current number and take it as the new mode when its
frequency strictly exceeds the maximum seen so far.  The frequency object
is modelled as a function (distinct numbers have distinct string keys). -/
def modeStep (st : (ℚ → ℕ) × ℕ × Option ℚ) (num : ℚ) : (ℚ → ℕ) × ℕ × Option ℚ :=
  let freq := Function.update st.1 num (st.1 num + 1)
  if freq num > st.2.1 then (freq, freq num, some num)
  else (freq, st.2.1, st.2.2)

/-- The mode-finding loop run over a number list. -/
def modeScan (l : List ℚ) : Option ℚ :=
  (l.foldl modeStep (fun _ => 0, 0, none)).2.2

/-- `calculateStatistics` from Analysis.js lines 235 to 274.  The input is
filtered to actual numbers, sorted in place, and the five statistics are
computed and rounded to two decimals.  Because of the in-place sort, the
`forEach` mode scan runs over the sorted array. -/
def calculateStatistics (data : List Val) : Option Stats :=
  if data.length = 0 then none
  else
    let numbers0 := data.filterMap numVal
    if numbers0.length = 0 then none
    else
      let sorted := numbers0.insertionSort (· ≤ ·)
      let len : ℚ := (sorted.length : ℚ)
      let sum := sorted.foldl (· + ·) 0
      let mean := sum / len
      let median :=
        if sorted.length % 2 = 0 then
          (((sorted.get? (sorted.length / 2 - 1)).getD 0)
            + ((sorted.get? (sorted.length / 2)).getD 0)) / 2
        else (sorted.get? (sorted.length / 2)).getD 0
      let mode := (modeScan sorted).getD 0
      let range := ((sorted.get? (sorted.length - 1)).getD 0) - ((sorted.get? 0).getD 0)
      let avgSquaredDiff := ((sorted.map (fun val => (val - mean) ^ 2)).foldl (· + ·) 0) / len
      some
        { mean := jsToFixed2 mean
          median := jsToFixed2 median
          mode := jsToFixed2 mode
          range := jsToFixed2 range
          standardDeviation := sqrtToFixed2 avgSquaredDiff }

/-! ### Heap model for the mutation claim

JavaScript arrays are reference values; to state that neither the
Calculator nor the Builder mutates its argument, arrays live in an explicit
heap and every array-producing or array-mutating step of the source is an
allocation or a write on that heap. -/

structure Heap (α : Type) where
  arrays : List (List α)
  deriving Repr

/-- Allocate a fresh array, returning its reference. -/
def Heap.alloc {α : Type} (h : Heap α) (a : List α) : ℕ × Heap α :=
  (h.arrays.length, ⟨h.arrays ++ [a]⟩)

/-- Read the array behind a reference. -/
def Heap.read {α : Type} (h : Heap α) (r : ℕ) : List α :=
  (h.arrays[r]?).getD []

/-- Overwrite the array behind a reference (an in-place mutation). -/
def Heap.write {α : Type} (h : Heap α) (r : ℕ) (a : List α) : Heap α :=
  ⟨h.arrays.set r a⟩

/-- `calculateStatistics` with its array operations made explicit on the
heap: `data.filter(...)` allocates a fresh array `numbers`, and
`numbers.sort(...)` is an in-place write to that fresh array — the only
mutation the function performs.  All later reads go through the sorted
array reference, as in the source after the aliasing sort. -/
def calculateStatisticsH (r : ℕ) (h : Heap Val) : Option Stats × Heap Val :=
  let data := h.read r
  if data.length = 0 then (none, h)
  else
    let alloc1 := h.alloc (data.filterMap numVal |>.map Val.vnum)
    let rn := alloc1.1
    let h1 := alloc1.2
    if (h1.read rn).length = 0 then (none, h1)
    else
      let h2 := h1.write rn ((((h1.read rn).filterMap numVal).insertionSort (· ≤ ·)).map Val.vnum)
      let sorted := (h2.read rn).filterMap numVal
      let len : ℚ := (sorted.length : ℚ)
      let sum := sorted.foldl (· + ·) 0
      let mean := sum / len
      let median :=
        if sorted.length % 2 = 0 then
          (((sorted.get? (sorted.length / 2 - 1)).getD 0)
            + ((sorted.get? (sorted.length / 2)).getD 0)) / 2
        else (sorted.get? (sorted.length / 2)).getD 0
      let mode := (modeScan sorted).getD 0
      let range := ((sorted.get? (sorted.length - 1)).getD 0) - ((sorted.get? 0).getD 0)
      let avgSquaredDiff := ((sorted.map (fun val => (val - mean) ^ 2)).foldl (· + ·) 0) / len
      (some
        { mean := jsToFixed2 mean
          median := jsToFixed2 median
          mode := jsToFixed2 mode
          range := jsToFixed2 range
          standardDeviation := sqrtToFixed2 avgSquaredDiff }, h2)

/-- `processChartData` with the heap explicit: the builder's body uses only
`forEach` (a read), `slice` and `map` (allocations of fresh arrays whose
contents the result captures), so it performs no heap write at all; its
heap action is the identity. -/
def processChartDataH (r : ℕ) (xcol ycol : String) (chartType : ChartType) (h : Heap Row) :
    Except ChartErr ChartData × Heap Row :=
  (processChartData (h.read r) xcol ycol chartType, h)

/-! ### Claim-side definitions

Definitions below formalise wording of the specification for comparison
against the source embedding. -/

/-- A concrete two-column row used by witnesses and counterexamples. -/
def mkRow (c v : Val) : Row := fun k =>
  if k = "c" then c else if k = "v" then v else Val.vundef

/-- Replace an empty-string cell by `null`, leaving all else unchanged. -/
def blankToNull : Val → Val
  | Val.vstr s => if s = "" then Val.vnull else Val.vstr s
  | v => v

/-- The distinct coerced x-values of a row sequence, in first-seen order
(the order the specification claims for pie labels). -/
def firstSeenKeys (rows : List Row) (xcol : String) : List String :=
  rows.foldl
    (fun acc r =>
      let k := jsToString (r xcol)
      if k ∈ acc then acc else acc ++ [k]) []

/-- The sum, over the rows of one group, of the y-values parsed as floats
(the aggregated value the specification claims for pie). -/
def groupSum (rows : List Row) (xcol ycol : String) (k : String) : ℚ :=
  ((rows.filter (fun r => jsToString (r xcol) = k)).map
    (fun r => parseFloatOr0 (r ycol))).sum

/-- The Row the specification describes: header names zipped to cell
positions, missing and undefined positions mapped to null, extra cells
beyond the header length discarded. -/
def zipRowSpec (headers row : List Val) : List (String × Val) :=
  (headers.map jsToString).zip ((List.range headers.length).map (cellAt row))

/-! ### Lemmas: evidence counting (claims C3, C10, C4) -/

theorem evidenceStep_eq (c : ℕ × ℕ) (v : Val) :
    evidenceStep c v =
      (c.1 + (if evidenceOf v = some Evidence.num then 1 else 0),
       c.2 + (if evidenceOf v = some Evidence.date then 1 else 0)) := by
  rcases v with _ | _ | q | b | s
  · simp [evidenceStep, evidenceOf]
  · simp [evidenceStep, evidenceOf]
  · simp [evidenceStep, evidenceOf]
  · simp [evidenceStep, evidenceOf]
  · by_cases hs : s = ""
    · simp [evidenceStep, evidenceOf, hs]
    · by_cases hd : (jsDateValid s && dateRegexTest s) = true
      · simp [evidenceStep, evidenceOf, hs, hd]
      · by_cases hp : (jsParseFloat s).isSome
        · simp [evidenceStep, evidenceOf, hs, hd, hp]
        · simp [evidenceStep, evidenceOf, hs, hd, hp]

theorem foldl_evidenceStep (l : List Val) (c : ℕ × ℕ) :
    l.foldl evidenceStep c =
      (c.1 + (l.filter (fun v => evidenceOf v = some Evidence.num)).length,
       c.2 + (l.filter (fun v => evidenceOf v = some Evidence.date)).length) := by
  induction l generalizing c with
  | nil => simp
  | cons v t ih =>
    rw [List.foldl_cons, ih, evidenceStep_eq]
    rcases h : evidenceOf v with _ | e
    · simp [List.filter_cons, h, Nat.add_assoc]
    · rcases e with _ | _ <;> simp [List.filter_cons, h, Nat.add_assoc, Nat.add_comm 1]

theorem analyzeColumnType_counts (values : List Val) (h : values ≠ []) :
    analyzeColumnType values =
      (if numberEvidence values > dateEvidence values ∧ numberEvidence values > 0 then
        ColType.number
      else if dateEvidence values > 0 then ColType.date
      else ColType.string) := by
  have hlen : values.length ≠ 0 := by simpa [List.length_eq_zero] using h
  simp only [analyzeColumnType, numberEvidence, dateEvidence, if_neg hlen,
    foldl_evidenceStep, Nat.zero_add]

/-- C3: `analyzeColumnType` returns `number` exactly when the
number-evidence count strictly exceeds the date-evidence count and is
strictly positive; otherwise it returns `date` exactly when the
date-evidence count is positive; otherwise `string`; and on empty input it
returns `string`. -/
theorem claim_inferencer_decision (values : List Val) :
    (analyzeColumnType values = ColType.number ↔
      numberEvidence values > dateEvidence values ∧ numberEvidence values > 0)
    ∧ (analyzeColumnType values = ColType.date ↔
      ¬(numberEvidence values > dateEvidence values ∧ numberEvidence values > 0)
        ∧ dateEvidence values > 0)
    ∧ (analyzeColumnType values = ColType.string ↔
      ¬(numberEvidence values > dateEvidence values ∧ numberEvidence values > 0)
        ∧ ¬(dateEvidence values > 0))
    ∧ analyzeColumnType [] = ColType.string := by
  rcases eq_or_ne values [] with rfl | hne
  · simp [analyzeColumnType, numberEvidence, dateEvidence]
  · rw [analyzeColumnType_counts values hne]
    refine ⟨?_, ?_, ?_, by simp [analyzeColumnType]⟩ <;>
      split_ifs with h1 h2 <;> simp_all <;> omega

/-- Witness for C3 at concrete inputs. -/
theorem claim_inferencer_decision_witness :
    analyzeColumnType [Val.vnum 1, Val.vnum 2, Val.vnum 3] = ColType.number :=
  (claim_inferencer_decision [Val.vnum 1, Val.vnum 2, Val.vnum 3]).1.mpr (by decide)

/-- C10: the Inferencer treats empty-string cells exactly like null and
undefined: rewriting empty strings to null never changes the outcome,
a skipped empty string still consumes one of the ten examined slots
(ten leading empty strings hide everything after them), and a non-empty
column whose first ten values are all empty strings is classified
`string`. -/
theorem claim_inferencer_blank (values : List Val) (rest : List Val) :
    (analyzeColumnType (values.map blankToNull) = analyzeColumnType values)
    ∧ (analyzeColumnType (List.replicate 10 (Val.vstr "") ++ rest) = ColType.string)
    ∧ (values ≠ [] → (∀ v ∈ values.take 10, v = Val.vstr "") →
        analyzeColumnType values = ColType.string) := by
  have hev : ∀ v : Val, evidenceOf (blankToNull v) = evidenceOf v := by
    intro v
    rcases v with _ | _ | q | b | s
    · rfl
    · rfl
    · rfl
    · rfl
    · by_cases hs : s = "" <;> simp [blankToNull, evidenceOf, hs]
  have hcount : ∀ (p : Val → Bool) (l : List Val),
      (l.filter (fun v => p (blankToNull v))).length = l.countP (fun v => p (blankToNull v)) := by
    intro p l
    simp [List.countP_eq_length_filter]
  refine ⟨?_, ?_, ?_⟩
  · rcases eq_or_ne values [] with rfl | hne
    · rfl
    · have hne2 : values.map blankToNull ≠ [] := by simpa using hne
      have hN : numberEvidence (values.map blankToNull) = numberEvidence values := by
        simp only [numberEvidence, ← List.map_take, List.filter_map, List.length_map,
          Function.comp_def, hev]
      have hD : dateEvidence (values.map blankToNull) = dateEvidence values := by
        simp only [dateEvidence, ← List.map_take, List.filter_map, List.length_map,
          Function.comp_def, hev]
      rw [analyzeColumnType_counts values hne, analyzeColumnType_counts _ hne2, hN, hD]
  · have h10 : (List.replicate 10 (Val.vstr "") ++ rest).take 10
        = List.replicate 10 (Val.vstr "") := by
      rw [List.take_left']
      simp
    rw [analyzeColumnType_counts _ (by simp)]
    simp only [numberEvidence, dateEvidence, h10]
    decide
  · intro hne hall
    have hN : numberEvidence values = 0 := by
      simp only [numberEvidence, List.length_eq_zero, List.filter_eq_nil_iff]
      intro v hv
      rw [hall v hv]
      decide
    have hD : dateEvidence values = 0 := by
      simp only [dateEvidence, List.length_eq_zero, List.filter_eq_nil_iff]
      intro v hv
      rw [hall v hv]
      decide
    rw [analyzeColumnType_counts values hne, hN, hD]
    simp

/-- Witness for C10 at a concrete input (ten empty strings followed by a
number still classify as `string`). -/
theorem claim_inferencer_blank_witness :
    analyzeColumnType (List.replicate 10 (Val.vstr "") ++ [Val.vnum 5]) = ColType.string :=
  (claim_inferencer_blank [] [Val.vnum 5]).2.1

/-- C6: for bar, line and area charts the builder truncates to exactly the
first 50 rows in original order before mapping (one raw x-label and one
parsed-or-0 y-value per retained row); feeding more than 50 rows yields a
series of length exactly 50, and feeding at most 50 rows truncates
nothing. -/
theorem claim_builder_truncation (rows : List Row) (xcol ycol : String) (t : ChartType)
    (ht : t = ChartType.bar ∨ t = ChartType.line ∨ t = ChartType.area)
    (hne : rows ≠ []) :
    processChartData rows xcol ycol t =
      Except.ok
        { labels := (rows.take 50).map (fun r => r xcol)
          sdata := (rows.take 50).map (fun r => parseFloatOr0 (r ycol))
          points := [] }
    ∧ (50 < rows.length → ((rows.take 50).map (fun r => r xcol)).length = 50)
    ∧ (rows.length ≤ 50 → rows.take 50 = rows) := by
  have hlen : rows.length ≠ 0 := by simpa [List.length_eq_zero] using hne
  refine ⟨?_, ?_, ?_⟩
  · rcases ht with rfl | rfl | rfl <;> simp [processChartData, hlen, List.map_take]
  · intro hgt
    simp [List.length_take]
    omega
  · intro hle
    exact List.take_of_length_le hle

/-- Witness for C6: 60 identical rows produce a 50-point bar series. -/
theorem claim_builder_truncation_witness :
    processChartData (List.replicate 60 (mkRow (Val.vstr "a") (Val.vnum 1))) "c" "v"
        ChartType.bar =
      Except.ok
        { labels := ((List.replicate 60 (mkRow (Val.vstr "a") (Val.vnum 1))).take 50).map
            (fun r => r "c")
          sdata := ((List.replicate 60 (mkRow (Val.vstr "a") (Val.vnum 1))).take 50).map
            (fun r => parseFloatOr0 (r "v"))
          points := [] }
    ∧ (((List.replicate 60 (mkRow (Val.vstr "a") (Val.vnum 1))).take 50).map
        (fun r => r "c")).length = 50 :=
  ⟨(claim_builder_truncation _ "c" "v" ChartType.bar (Or.inl rfl) (by simp)).1,
   (claim_builder_truncation _ "c" "v" ChartType.bar (Or.inl rfl) (by simp)).2.1 (by simp)⟩

/-- C7: the builder fails with the EmptyDataset error exactly when the row
list is empty (a labeled failure, not a silent empty series); every
non-empty input succeeds for every chart type; and a y-value that does not
parse as a number (a non-numeric string, null or undefined) contributes 0
rather than failing. -/
theorem claim_builder_empty_error (rows : List Row) (xcol ycol : String) (t : ChartType) :
    (processChartData rows xcol ycol t = Except.error ChartErr.emptyDataset ↔ rows = [])
    ∧ (rows ≠ [] → ∃ cd, processChartData rows xcol ycol t = Except.ok cd)
    ∧ (∀ s, jsParseFloat s = none → parseFloatOr0 (Val.vstr s) = 0)
    ∧ parseFloatOr0 Val.vnull = 0
    ∧ parseFloatOr0 Val.vundef = 0 := by
  refine ⟨?_, ?_, ?_, rfl, rfl⟩
  · rcases eq_or_ne rows [] with rfl | hne
    · simp [processChartData]
    · have hlen : rows.length ≠ 0 := by simpa [List.length_eq_zero] using hne
      rcases t with _ | _ | _ | _ | _ <;> simp [processChartData, hlen, hne]
  · intro hne
    have hlen : rows.length ≠ 0 := by simpa [List.length_eq_zero] using hne
    cases hpc : processChartData rows xcol ycol t with
    | ok cd => exact ⟨cd, rfl⟩
    | error e =>
      exfalso
      rcases t with _ | _ | _ | _ | _ <;> simp [processChartData, hlen] at hpc
  · intro s hs
    simp [parseFloatOr0, hs]

/-- Witness for C7: a scatter row whose y is non-numeric text yields the
point (0, 0) with no failure. -/
theorem claim_builder_empty_error_witness :
    (∃ cd, processChartData [mkRow (Val.vstr "x") (Val.vstr "oops")] "c" "v"
        ChartType.scatter = Except.ok cd)
    ∧ parseFloatOr0 (Val.vstr "oops") = 0 :=
  ⟨(claim_builder_empty_error [mkRow (Val.vstr "x") (Val.vstr "oops")] "c" "v"
      ChartType.scatter).2.1 (by simp),
   (claim_builder_empty_error [] "c" "v" ChartType.scatter).2.2.1 "oops" (by decide)⟩

/-- C4: a text value counts as date-evidence if and only if it matches the
strict pattern — some position starts a four-digit-year-first
`YYYY-MM-DD`-shaped match or a slash-separated numeric-triple
`DD/MM/YYYY`-shaped match (the two alternatives of the source regex, a
substring test) — AND the host date parse is valid; and a text value that
does not count as date-evidence counts as number-evidence if and only if
`parseFloat` yields a number. -/
theorem claim_date_evidence (s : String) :
    (evidenceOf (Val.vstr s) = some Evidence.date ↔
      (dateRegexTest s = true ∧ jsDateValid s = true))
    ∧ (dateRegexTest s = true ↔
        ∃ t, List.IsSuffix t s.toList
          ∧ (matchesIsoAt t = true ∨ matchesSlashAt t = true))
    ∧ (evidenceOf (Val.vstr s) ≠ some Evidence.date →
      (evidenceOf (Val.vstr s) = some Evidence.num ↔ (jsParseFloat s).isSome = true)) := by
  refine ⟨?_, ?_, ?_⟩
  · by_cases hs : s = ""
    · subst hs
      constructor
      · intro h
        simp [evidenceOf] at h
      · rintro ⟨hr, -⟩
        exact absurd hr (by decide)
    · by_cases hd : (jsDateValid s && dateRegexTest s) = true
      · rw [Bool.and_eq_true] at hd
        simp [evidenceOf, hs, hd.1, hd.2]
      · constructor
        · intro h
          exfalso
          by_cases hp : (jsParseFloat s).isSome <;> simp [evidenceOf, hs, hd, hp] at h
        · rintro ⟨hr, hval⟩
          exact absurd (by rw [Bool.and_eq_true]; exact ⟨hval, hr⟩) hd
  · simp [dateRegexTest, List.any_eq_true, List.mem_tails, Bool.or_eq_true]
  · intro hne
    by_cases hs : s = ""
    · subst hs
      constructor
      · intro h
        simp [evidenceOf] at h
      · intro h
        exact absurd h (by decide)
    · by_cases hd : (jsDateValid s && dateRegexTest s) = true
      · exact absurd (by simp [evidenceOf, hs, hd]) hne
      · by_cases hp : (jsParseFloat s).isSome <;> simp [evidenceOf, hs, hd, hp]

/-- Witness for C4: a plain ISO date and an ISO date-time both count as
date-evidence; a plain word, which is not date-evidence, is also not
number-evidence because it does not parse as a float. -/
theorem claim_date_evidence_witness :
    evidenceOf (Val.vstr "2023-01-01") = some Evidence.date
    ∧ evidenceOf (Val.vstr "2023-01-01T10:00") = some Evidence.date
    ∧ (evidenceOf (Val.vstr "hello") = some Evidence.num ↔
        (jsParseFloat "hello").isSome = true) :=
  ⟨(claim_date_evidence "2023-01-01").1.mpr (by decide),
   (claim_date_evidence "2023-01-01T10:00").1.mpr (by decide),
   (claim_date_evidence "hello").2.2 (by decide)⟩

/-! ### Lemmas: the object model -/

theorem objGet_map_keep {α : Type} (o : List (String × α)) (k q : String) (v : α)
    (hq : q ≠ k) :
    objGet (o.map (fun p => if p.1 = k then (k, v) else p)) q = objGet o q := by
  induction o with
  | nil => rfl
  | cons p t ih =>
    rcases p with ⟨a, c⟩
    by_cases ha : a = k
    · subst ha
      simp only [List.map_cons, if_pos rfl, objGet]
      rw [if_neg (by simpa [eq_comm] using hq), if_neg (by simpa [eq_comm] using hq), ih]
    · by_cases hqa : a = q
      · subst hqa
        simp [objGet, ha]
      · simp [objGet, ha, hqa, ih]

theorem objGet_objSet {α : Type} (o : List (String × α)) (k q : String) (v : α) :
    objGet (objSet o k v) q = if q = k then some v else objGet o q := by
  induction o with
  | nil =>
    by_cases hq : q = k
    · subst hq
      simp [objSet, objGet]
    · simp [objSet, objGet, hq, Ne.symm hq]
  | cons p t ih =>
    rcases p with ⟨a, c⟩
    by_cases ha : a = k
    · subst ha
      by_cases hq : q = a
      · subst hq
        simp [objSet, objGet]
      · have hne : ¬(a = q) := by simpa [eq_comm] using hq
        simp [objSet, objGet, hq, hne, objGet_map_keep t a q v hq]
    · have hcond : objGet ((a, c) :: t) k = objGet t k := by simp [objGet, ha]
      by_cases ht : (objGet t k).isSome
      · have h1 : objSet ((a, c) :: t) k v = (a, c) :: objSet t k v := by
          simp [objSet, hcond, ht, ha]
        by_cases hq : q = k
        · subst hq
          have hne : ¬(a = q) := ha
          simp [h1, objGet, hne, ih]
        · by_cases hqa : a = q
          · subst hqa
            simp [h1, objGet, hq]
          · simp [h1, objGet, hq, hqa, ih]
      · have h1 : objSet ((a, c) :: t) k v = (a, c) :: objSet t k v := by
          simp [objSet, hcond, ht]
        by_cases hq : q = k
        · subst hq
          have hne : ¬(a = q) := ha
          simp [h1, objGet, hne, ih]
        · by_cases hqa : a = q
          · subst hqa
            simp [h1, objGet, hq]
          · simp [h1, objGet, hq, hqa, ih]

theorem map_fst_map_keep {α : Type} (o : List (String × α)) (k : String) (v : α) :
    (o.map (fun p => if p.1 = k then (k, v) else p)).map Prod.fst = o.map Prod.fst := by
  induction o with
  | nil => rfl
  | cons p t ih =>
    by_cases hp : p.1 = k <;> simp [hp, ih]

theorem map_fst_objSet {α : Type} (o : List (String × α)) (k : String) (v : α) :
    (objSet o k v).map Prod.fst =
      if (objGet o k).isSome then o.map Prod.fst else o.map Prod.fst ++ [k] := by
  by_cases h : (objGet o k).isSome
  · simp only [objSet, h, if_true]
    exact map_fst_map_keep o k v
  · simp [objSet, h]

theorem objGet_isSome_iff {α : Type} (o : List (String × α)) (k : String) :
    (objGet o k).isSome = true ↔ k ∈ o.map Prod.fst := by
  induction o with
  | nil => simp [objGet]
  | cons p t ih =>
    rcases p with ⟨a, c⟩
    by_cases hk : a = k
    · simp [objGet, hk]
    · simp [objGet, hk, ih, Ne.symm hk]

/-! ### Lemmas: the ingestor (claim C5) -/

theorem objSet_fresh {α : Type} (o : List (String × α)) (k : String) (v : α)
    (h : k ∉ o.map Prod.fst) : objSet o k v = o ++ [(k, v)] := by
  have : ¬((objGet o k).isSome = true) := fun hs => h ((objGet_isSome_iff o k).mp hs)
  simp [objSet, this]

theorem rowToObj_go (row : List Val) :
    ∀ (hs : List Val) (i : ℕ) (obj : List (String × Val)),
      (∀ h ∈ hs, jsToString h ∉ obj.map Prod.fst) →
      (hs.map jsToString).Nodup →
      (hs.enumFrom i).foldl (fun obj p => objSet obj (jsToString p.2) (cellAt row p.1)) obj
        = obj ++ (hs.map jsToString).zip
            ((List.range hs.length).map (fun j => cellAt row (i + j))) := by
  intro hs
  induction hs with
  | nil => intro i obj _ _; simp
  | cons h0 t ih =>
    intro i obj hfresh hnd
    have hk0 : jsToString h0 ∉ obj.map Prod.fst := hfresh h0 (by simp)
    have hstep : objSet obj (jsToString h0) (cellAt row i) =
        obj ++ [(jsToString h0, cellAt row i)] := objSet_fresh obj _ _ hk0
    have hcons : (∀ x ∈ t, ¬jsToString x = jsToString h0)
        ∧ (t.map jsToString).Nodup := by simpa using hnd
    have hnd0 : jsToString h0 ∉ t.map jsToString := by
      intro hmem
      obtain ⟨x, hx, hxx⟩ := List.mem_map.mp hmem
      exact hcons.1 x hx hxx
    have hndt : (t.map jsToString).Nodup := hcons.2
    have hfresh2 : ∀ h ∈ t, jsToString h ∉
        (obj ++ [(jsToString h0, cellAt row i)]).map Prod.fst := by
      intro h hmem
      simp only [List.map_append, List.map_cons, List.map_nil, List.mem_append,
        List.mem_singleton]
      rintro (hin | heq)
      · exact hfresh h (by simp [hmem]) hin
      · exact hnd0 (heq ▸ List.mem_map_of_mem jsToString hmem)
    calc ((h0 :: t).enumFrom i).foldl
          (fun obj p => objSet obj (jsToString p.2) (cellAt row p.1)) obj
        = (t.enumFrom (i + 1)).foldl
            (fun obj p => objSet obj (jsToString p.2) (cellAt row p.1))
            (obj ++ [(jsToString h0, cellAt row i)]) := by
          simp [List.enumFrom, hstep]
      _ = (obj ++ [(jsToString h0, cellAt row i)])
            ++ (t.map jsToString).zip
              ((List.range t.length).map (fun j => cellAt row (i + 1 + j))) :=
          ih (i + 1) _ hfresh2 hndt
      _ = obj ++ ((h0 :: t).map jsToString).zip
            ((List.range (h0 :: t).length).map (fun j => cellAt row (i + j))) := by
          rw [List.length_cons, List.range_succ_eq_map, List.map_cons, List.map_cons,
            List.map_map]
          have hjs : ((List.range t.length).map (fun j => cellAt row (i + 1 + j)))
              = (List.range t.length).map ((fun j => cellAt row (i + j)) ∘ Nat.succ) := by
            apply List.map_congr_left
            intro j _
            show cellAt row (i + 1 + j) = cellAt row (i + Nat.succ j)
            congr 1
            omega
          rw [hjs]
          rw [List.zip_cons_cons, List.append_assoc, List.singleton_append, Nat.add_zero]

theorem rowToObj_eq_zip (headers row : List Val)
    (hnd : (headers.map jsToString).Nodup) :
    rowToObj headers row = zipRowSpec headers row := by
  have h := rowToObj_go row headers 0 [] (by simp) hnd
  simp only [List.append_nil, List.nil_append] at h
  calc rowToObj headers row
      = (headers.enumFrom 0).foldl
          (fun obj p => objSet obj (jsToString p.2) (cellAt row p.1)) [] := rfl
    _ = (headers.map jsToString).zip
          ((List.range headers.length).map (fun j => cellAt row (0 + j))) := h
    _ = zipRowSpec headers row := by
        unfold zipRowSpec
        congr 1
        apply List.map_congr_left
        intro j _
        simp

/-- C5: for a sheet whose first row is a non-empty header row (with the
distinct header names the data model guarantees), the ingestor converts
each data row to a Row by zipping header names to cell positions —
discarding cells beyond the header length — and returns `rowCount` equal
to the number of data rows, the header row not counted; and any missing or
out-of-range cell position reads as null. -/
theorem claim_ingestor_zip (headers : List Val) (rows : List (List Val))
    (hne : headers ≠ []) (hnd : (headers.map jsToString).Nodup) :
    (∃ r, processExcelFile (headers :: rows) = Except.ok r
      ∧ r.rowCount = rows.length
      ∧ r.data = rows.map (fun row => zipRowSpec headers row))
    ∧ (∀ (row : List Val) (j : ℕ), row.length ≤ j → cellAt row j = Val.vnull) := by
  constructor
  · have hlen : headers.length ≠ 0 := by simpa [List.length_eq_zero] using hne
    have hok : processExcelFile (headers :: rows) = Except.ok
        { data := rows.map (fun row => rowToObj headers row)
          columns := headers.map
            (fun h => columnFor (rows.map (fun row => rowToObj headers row)) h)
          rowCount := rows.length } := by
      simp [processExcelFile, hlen]
    refine ⟨_, hok, rfl, ?_⟩
    apply List.map_congr_left
    intro row _
    exact rowToObj_eq_zip headers row hnd
  · intro row j hj
    have hg : row[j]? = none := by
      rw [← List.get?_eq_getElem?]
      exact List.get?_eq_none.mpr hj
    simp [cellAt, hg]

/-- Witness for C5 at a concrete sheet: two headers, one short row and one
over-long row. -/
theorem claim_ingestor_zip_witness :
    (∃ r, processExcelFile
        [[Val.vstr "a", Val.vstr "b"], [Val.vnum 1],
         [Val.vnum 4, Val.vnum 5, Val.vnum 6]] = Except.ok r
      ∧ r.rowCount = 2
      ∧ r.data = [[("a", Val.vnum 1), ("b", Val.vnull)],
                  [("a", Val.vnum 4), ("b", Val.vnum 5)]]) := by
  obtain ⟨⟨r, hok, hcount, hdata⟩, -⟩ :=
    claim_ingestor_zip [Val.vstr "a", Val.vstr "b"]
      [[Val.vnum 1], [Val.vnum 4, Val.vnum 5, Val.vnum 6]]
      (by decide) (by decide)
  exact ⟨r, hok, hcount, by rw [hdata]; decide⟩

/-! ### Lemmas: the pie grouping (claim C2) -/

/-- The key-insertion step underlying first-seen key order. -/
def insKey (xcol : String) (acc : List String) (r : Row) : List String :=
  if jsToString (r xcol) ∈ acc then acc else acc ++ [jsToString (r xcol)]

theorem firstSeenKeys_eq_foldl (rows : List Row) (xcol : String) :
    firstSeenKeys rows xcol = rows.foldl (insKey xcol) [] := rfl

theorem map_fst_pieStep (xcol ycol : String) (acc : List (String × ℚ)) (row : Row) :
    (pieStep xcol ycol acc row).map Prod.fst = insKey xcol (acc.map Prod.fst) row := by
  unfold pieStep insKey
  cases hg : objGet acc (jsToString (row xcol)) with
  | some cur =>
    have hmem : jsToString (row xcol) ∈ acc.map Prod.fst :=
      (objGet_isSome_iff _ _).mp (by simp [hg])
    by_cases hc : cur ≠ 0 <;> simp [hc, map_fst_objSet, hg, hmem]
  | none =>
    have hmem : jsToString (row xcol) ∉ acc.map Prod.fst := by
      rw [← objGet_isSome_iff]
      simp [hg]
    simp [map_fst_objSet, hg, hmem]

theorem map_fst_pieFold_go (xcol ycol : String) (rows : List Row) :
    ∀ acc, (rows.foldl (pieStep xcol ycol) acc).map Prod.fst =
      rows.foldl (insKey xcol) (acc.map Prod.fst) := by
  induction rows with
  | nil => intro acc; rfl
  | cons r t ih =>
    intro acc
    rw [List.foldl_cons, List.foldl_cons, ih, map_fst_pieStep]

theorem map_fst_pieFold (rows : List Row) (xcol ycol : String) :
    (pieFold rows xcol ycol).map Prod.fst = firstSeenKeys rows xcol := by
  rw [pieFold, map_fst_pieFold_go, firstSeenKeys_eq_foldl]
  rfl

theorem groupSum_nil (xcol ycol : String) (k : String) :
    groupSum [] xcol ycol k = 0 := rfl

theorem groupSum_cons (r : Row) (t : List Row) (xcol ycol : String) (k : String) :
    groupSum (r :: t) xcol ycol k =
      (if jsToString (r xcol) = k then parseFloatOr0 (r ycol) else 0)
        + groupSum t xcol ycol k := by
  unfold groupSum
  by_cases h : jsToString (r xcol) = k <;> simp [List.filter_cons, h]

theorem objGetD_pieStep (xcol ycol : String) (acc : List (String × ℚ)) (row : Row)
    (k : String) :
    (objGet (pieStep xcol ycol acc row) k).getD 0 =
      (objGet acc k).getD 0
        + (if jsToString (row xcol) = k then parseFloatOr0 (row ycol) else 0) := by
  unfold pieStep
  by_cases hk : jsToString (row xcol) = k
  · subst hk
    cases hg : objGet acc (jsToString (row xcol)) with
    | some cur =>
      by_cases hc : cur ≠ 0 <;> simp [hc, objGet_objSet, hg]
      · simp_all
    | none => simp [objGet_objSet, hg]
  · have hk2 : ¬(k = jsToString (row xcol)) := fun h => hk h.symm
    cases hg : objGet acc (jsToString (row xcol)) with
    | some cur =>
      by_cases hc : cur ≠ 0 <;> simp [hc, hg, objGet_objSet, hk, hk2]
    | none => simp [hg, objGet_objSet, hk, hk2]

theorem objGetD_pieFold_go (xcol ycol : String) (rows : List Row) :
    ∀ (acc : List (String × ℚ)) (k : String),
      (objGet (rows.foldl (pieStep xcol ycol) acc) k).getD 0 =
        (objGet acc k).getD 0 + groupSum rows xcol ycol k := by
  induction rows with
  | nil => intro acc k; simp [groupSum_nil]
  | cons r t ih =>
    intro acc k
    rw [List.foldl_cons, ih, objGetD_pieStep, groupSum_cons, add_assoc]

theorem objGetD_pieFold (rows : List Row) (xcol ycol : String) (k : String) :
    (objGet (pieFold rows xcol ycol) k).getD 0 = groupSum rows xcol ycol k := by
  rw [pieFold, objGetD_pieFold_go]
  simp [objGet]

theorem insKey_fold_nodup (xcol : String) (rows : List Row) :
    ∀ acc : List String, acc.Nodup → (rows.foldl (insKey xcol) acc).Nodup := by
  induction rows with
  | nil => intro acc h; exact h
  | cons r t ih =>
    intro acc h
    rw [List.foldl_cons]
    apply ih
    unfold insKey
    by_cases hm : jsToString (r xcol) ∈ acc
    · simpa [hm] using h
    · simp [hm, List.nodup_append, h]

theorem insKey_fold_mem (xcol : String) (rows : List Row) :
    ∀ (acc : List String) (k : String),
      k ∈ rows.foldl (insKey xcol) acc ↔
        k ∈ acc ∨ k ∈ rows.map (fun r => jsToString (r xcol)) := by
  induction rows with
  | nil => intro acc k; simp
  | cons r t ih =>
    intro acc k
    rw [List.foldl_cons, ih]
    unfold insKey
    by_cases hm : jsToString (r xcol) ∈ acc
    · by_cases hk : k = jsToString (r xcol) <;> simp [hm, hk]
    · by_cases hk : k = jsToString (r xcol) <;> simp [hm, hk, or_assoc]

/-- C2 (amended): the pie branch outputs exactly one label and one
aggregated value per distinct string-coerced x-value (each value the sum
of the group's y-values parsed as floats, non-numeric or missing
contributing 0), but the labels appear in JavaScript own-property
enumeration order — x-keys that are canonical array indices first, in
ascending numeric order, then the remaining keys in first-seen order — not
in plain first-seen order. -/
theorem claim_pie_amended (rows : List Row) (xcol ycol : String) (hne : rows ≠ []) :
    processChartData rows xcol ycol ChartType.pie =
      Except.ok
        { labels := (jsKeyOrder (firstSeenKeys rows xcol)).map Val.vstr
          sdata := (jsKeyOrder (firstSeenKeys rows xcol)).map (groupSum rows xcol ycol)
          points := [] }
    ∧ (firstSeenKeys rows xcol).Nodup
    ∧ (∀ k, k ∈ firstSeenKeys rows xcol ↔
        k ∈ rows.map (fun r => jsToString (r xcol))) := by
  have hlen : rows.length ≠ 0 := by simpa [List.length_eq_zero] using hne
  refine ⟨?_, ?_, ?_⟩
  · have hkeys : objKeys (pieFold rows xcol ycol) = jsKeyOrder (firstSeenKeys rows xcol) := by
      rw [objKeys, map_fst_pieFold]
    have hdata : (jsKeyOrder (firstSeenKeys rows xcol)).map
        (fun k => (objGet (pieFold rows xcol ycol) k).getD 0)
        = (jsKeyOrder (firstSeenKeys rows xcol)).map (groupSum rows xcol ycol) := by
      apply List.map_congr_left
      intro k _
      exact objGetD_pieFold rows xcol ycol k
    simp only [processChartData, hlen, if_false]
    rw [hkeys, hdata]
  · rw [firstSeenKeys_eq_foldl]
    exact insKey_fold_nodup xcol rows [] List.nodup_nil
  · intro k
    rw [firstSeenKeys_eq_foldl, insKey_fold_mem]
    simp

/-- Witness for the amended C2 at the specification's own example rows. -/
theorem claim_pie_amended_witness :
    processChartData
        [mkRow (Val.vstr "A") (Val.vnum 1), mkRow (Val.vstr "A") (Val.vnum 2),
         mkRow (Val.vstr "B") (Val.vnum 5)] "c" "v" ChartType.pie =
      Except.ok { labels := [Val.vstr "A", Val.vstr "B"], sdata := [3, 5], points := [] } := by
  rw [(claim_pie_amended
    [mkRow (Val.vstr "A") (Val.vnum 1), mkRow (Val.vstr "A") (Val.vnum 2),
     mkRow (Val.vstr "B") (Val.vnum 5)] "c" "v" (List.cons_ne_nil _ _)).1]
  simp +decide [jsKeyOrder, firstSeenKeys, insKey, isArrayIndex, digitsToNat, mkRow,
    jsToString, groupSum, parseFloatOr0]
  norm_num

/-- C2 counterexample: with x-values "b" then "1", the first-seen order is
["b", "1"] but the code emits labels ["1", "b"], because "1" is an
array-index key and JavaScript enumerates those first. -/
theorem claim_pie_counterexample :
    (processChartData [mkRow (Val.vstr "b") (Val.vnum 1), mkRow (Val.vstr "1") (Val.vnum 2)]
        "c" "v" ChartType.pie).toOption.map ChartData.labels
      = some [Val.vstr "1", Val.vstr "b"]
    ∧ firstSeenKeys
        [mkRow (Val.vstr "b") (Val.vnum 1), mkRow (Val.vstr "1") (Val.vnum 2)] "c"
      = ["b", "1"]
    ∧ [Val.vstr "1", Val.vstr "b"] ≠ ["b", "1"].map Val.vstr := by
  exact ⟨by decide, by decide, by decide⟩

/-! ### Lemmas: the mode scan (claim C1)

The invariant of the frequency-scan loop: after processing a prefix `p`,
the frequency table holds the occurrence counts of `p`, `maxFreq` is the
maximum count, and `mode` is the least value attaining it — because on a
sorted prefix "first to reach the maximum count" is the least value among
the maximally frequent ones. -/

def ModeInv (st : (ℚ → ℕ) × ℕ × Option ℚ) (p : List ℚ) : Prop :=
  st.1 = (fun q => p.count q)
  ∧ ((p = [] ∧ st.2.1 = 0 ∧ st.2.2 = none)
    ∨ (∃ m, st.2.2 = some m ∧ m ∈ p ∧ st.2.1 = p.count m
        ∧ (∀ v, p.count v ≤ p.count m)
        ∧ (∀ v ∈ p, p.count v = p.count m → m ≤ v)))

theorem modeStep_inv (st : (ℚ → ℕ) × ℕ × Option ℚ) (p : List ℚ) (x : ℚ)
    (hinv : ModeInv st p) (hle : ∀ y ∈ p, y ≤ x) :
    ModeInv (modeStep st x) (p ++ [x]) := by
  obtain ⟨hf, hcase⟩ := hinv
  have hcx : (p ++ [x]).count x = p.count x + 1 := by
    simp [List.count_append]
  have hcv : ∀ v, v ≠ x → (p ++ [x]).count v = p.count v := by
    intro v hv
    simp [List.count_append, hv]
  have hup : Function.update st.1 x (st.1 x + 1) = fun q => (p ++ [x]).count q := by
    funext q
    by_cases hq : q = x
    · subst hq
      simp [Function.update_same, hcx, hf]
    · simp [Function.update_noteq hq, hcv q hq, hf]
  have hfx : st.1 x = p.count x := by rw [hf]
  by_cases hgt : st.1 x + 1 > st.2.1
  · have hstep : modeStep st x =
        (Function.update st.1 x (st.1 x + 1), st.1 x + 1, some x) := by
      simp [modeStep, Function.update_same, hgt]
    rw [hstep]
    refine ⟨hup, Or.inr ⟨x, rfl, by simp, ?_, ?_, ?_⟩⟩
    · show st.1 x + 1 = (p ++ [x]).count x
      rw [hfx, hcx]
    · intro v
      by_cases hv : v = x
      · subst hv
        exact le_refl _
      · rw [hcv v hv, hcx]
        rcases hcase with ⟨hp, h0, -⟩ | ⟨m, -, hm, hmax1, hmaxle, -⟩
        · subst hp
          simp
        · rw [hfx, hmax1] at hgt
          have h1 := hmaxle v
          omega
    · intro v hv heq
      by_cases hvx : v = x
      · subst hvx
        exact le_refl _
      · exfalso
        rw [hcv v hvx, hcx] at heq
        rcases hcase with ⟨hp, h0, -⟩ | ⟨m, -, hm, hmax1, hmaxle, -⟩
        · subst hp
          rcases List.mem_append.mp hv with h | h
          · simp at h
          · exact hvx (by simpa using h)
        · rw [hfx, hmax1] at hgt
          have h1 := hmaxle v
          omega
  · have hstep : modeStep st x =
        (Function.update st.1 x (st.1 x + 1), st.2.1, st.2.2) := by
      simp [modeStep, Function.update_same, hgt]
    push_neg at hgt
    rcases hcase with ⟨hp, h0, -⟩ | ⟨m, hsome, hm, hmax1, hmaxle, hleast⟩
    · exfalso
      rw [h0] at hgt
      simp at hgt
    · rw [hfx, hmax1] at hgt
      have hmx : m ≠ x := by
        intro hcontra
        subst hcontra
        omega
      rw [hstep]
      refine ⟨hup, Or.inr ⟨m, hsome, List.mem_append_left _ hm, ?_, ?_, ?_⟩⟩
      · show st.2.1 = (p ++ [x]).count m
        rw [hcv m hmx, hmax1]
      · intro v
        rw [hcv m hmx]
        by_cases hv : v = x
        · subst hv
          rw [hcx]
          omega
        · rw [hcv v hv]
          exact hmaxle v
      · intro v hv heq
        rw [hcv m hmx] at heq
        by_cases hvx : v = x
        · subst hvx
          exact hle m hm
        · rw [hcv v hvx] at heq
          rcases List.mem_append.mp hv with h | h
          · exact hleast v h heq
          · exact absurd (by simpa using h) hvx

theorem modeFold_inv (l : List ℚ) :
    ∀ (p : List ℚ) (st : (ℚ → ℕ) × ℕ × Option ℚ),
      ModeInv st p → (∀ x ∈ l, ∀ y ∈ p, y ≤ x) → l.Sorted (· ≤ ·) →
      ModeInv (l.foldl modeStep st) (p ++ l) := by
  induction l with
  | nil =>
    intro p st h _ _
    simpa using h
  | cons x t ih =>
    intro p st hinv hle hsorted
    rw [List.foldl_cons]
    have h1 : ModeInv (modeStep st x) (p ++ [x]) :=
      modeStep_inv st p x hinv (hle x (by simp))
    have hle2 : ∀ z ∈ t, ∀ y ∈ p ++ [x], y ≤ z := by
      intro z hz y hy
      rcases List.mem_append.mp hy with hyp | hyx
      · exact hle z (by simp [hz]) y hyp
      · have hyx2 : y = x := by simpa using hyx
        subst hyx2
        exact List.rel_of_sorted_cons hsorted z hz
    have h2 := ih (p ++ [x]) (modeStep st x) h1 hle2 hsorted.of_cons
    rw [List.append_assoc, List.singleton_append] at h2
    exact h2

theorem modeScan_sorted (l : List ℚ) (hs : l.Sorted (· ≤ ·)) (hne : l ≠ []) :
    ∃ m, modeScan l = some m ∧ m ∈ l ∧ (∀ v, l.count v ≤ l.count m)
      ∧ (∀ v ∈ l, l.count v = l.count m → m ≤ v) := by
  have hinit : ModeInv ((fun _ => 0), 0, none) [] := by
    refine ⟨?_, Or.inl ⟨rfl, rfl, rfl⟩⟩
    funext q
    simp
  have h := modeFold_inv l [] ((fun _ => 0), 0, none) hinit (by simp) hs
  rw [List.nil_append] at h
  obtain ⟨-, hcase⟩ := h
  rcases hcase with ⟨hp, -, -⟩ | ⟨m, hsome, hm, -, hmax, hleast⟩
  · exact absurd hp hne
  · exact ⟨m, by unfold modeScan; exact hsome, hm, hmax, hleast⟩

/-- The mode the Calculator returns, isolated: the scan runs over the
ascending-sorted array because the in-place `numbers.sort` aliased the
`numbers` variable. -/
theorem calculateStatistics_mode (data : List Val) (h0 : data.length ≠ 0)
    (h1 : (data.filterMap numVal).length ≠ 0) :
    (calculateStatistics data).map Stats.mode =
      some (jsToFixed2
        ((modeScan ((data.filterMap numVal).insertionSort (· ≤ ·))).getD 0)) := by
  simp [calculateStatistics, h0, h1]

/-- C1 (amended): the mode the Calculator returns is (the 2-decimal
rounding of) a value of maximum occurrence count among the filtered
numeric values, and when several values share the maximum count the
returned one is the numerically smallest — the first to reach the maximum
count in a left-to-right scan of the ascending-sorted values, because the
in-place `numbers.sort` aliases the array the scan then runs over — not
the first such value in input order. -/
theorem claim_stats_mode_amended (data : List Val) (s : Stats)
    (h : calculateStatistics data = some s) :
    ∃ m, s.mode = jsToFixed2 m ∧ m ∈ data.filterMap numVal
      ∧ (∀ v, (data.filterMap numVal).count v ≤ (data.filterMap numVal).count m)
      ∧ (∀ v ∈ data.filterMap numVal,
          (data.filterMap numVal).count v = (data.filterMap numVal).count m → m ≤ v) := by
  by_cases h0 : data.length = 0
  · exfalso
    simp [calculateStatistics, h0] at h
  · by_cases h1 : (data.filterMap numVal).length = 0
    · exfalso
      simp [calculateStatistics, h0, h1] at h
    · have hmode := calculateStatistics_mode data h0 h1
      rw [h] at hmode
      simp only [Option.map_some', Option.some.injEq] at hmode
      have hsorted : ((data.filterMap numVal).insertionSort (· ≤ ·)).Sorted (· ≤ ·) :=
        List.sorted_insertionSort _ _
      have hperm : List.Perm ((data.filterMap numVal).insertionSort (· ≤ ·)) (data.filterMap numVal) :=
        List.perm_insertionSort _ _
      have hne : (data.filterMap numVal).insertionSort (· ≤ ·) ≠ [] := by
        intro hcontra
        rw [← List.length_eq_zero, hperm.length_eq] at hcontra
        exact h1 hcontra
      obtain ⟨m, hscan, hmem, hmax, hleast⟩ := modeScan_sorted _ hsorted hne
      refine ⟨m, ?_, ?_, ?_, ?_⟩
      · rw [hmode, hscan]
        rfl
      · exact hperm.mem_iff.mp hmem
      · intro v
        have := hmax v
        rwa [hperm.count_eq, hperm.count_eq] at this
      · intro v hv heq
        exact hleast v (hperm.mem_iff.mpr hv)
          (by rwa [hperm.count_eq, hperm.count_eq])

/-- The Calculator evaluated at the concrete input `[2]`: a shared
evaluation used by witnesses. -/
theorem calculateStatistics_singleton2 :
    calculateStatistics [Val.vnum 2] =
      some { mean := 2, median := 2, mode := 2, range := 0, standardDeviation := 0 } := by
  simp only [calculateStatistics]
  rw [if_neg (by decide), if_neg (by decide)]
  simp only [Option.some.injEq]
  norm_num [numVal, List.insertionSort, List.orderedInsert, modeScan, modeStep,
    jsToFixed2, sqrtToFixed2, Function.update_same]

/-- Witness for the amended C1: on the single value 2 the returned mode is
2, which trivially has maximum count and is least among ties. -/
theorem claim_stats_mode_amended_witness :
    ∃ m, (2 : ℚ) = jsToFixed2 m ∧ m ∈ [Val.vnum 2].filterMap numVal
      ∧ (∀ v, ([Val.vnum 2].filterMap numVal).count v ≤
          ([Val.vnum 2].filterMap numVal).count m)
      ∧ (∀ v ∈ [Val.vnum 2].filterMap numVal,
          ([Val.vnum 2].filterMap numVal).count v =
            ([Val.vnum 2].filterMap numVal).count m → m ≤ v) := by
  simpa using claim_stats_mode_amended [Val.vnum 2]
    { mean := 2, median := 2, mode := 2, range := 0, standardDeviation := 0 }
    calculateStatistics_singleton2

/-- C1 counterexample: on input [2, 2, 1, 1, 3] the code returns mode 1
(the numerically smallest of the two equally frequent values), while a
left-to-right scan of the values in input order — what the claim
describes — yields 2, the first value to reach the maximum count. -/
theorem claim_stats_mode_counterexample :
    (calculateStatistics
        [Val.vnum 2, Val.vnum 2, Val.vnum 1, Val.vnum 1, Val.vnum 3]).map Stats.mode
      = some 1
    ∧ (modeScan
        ([Val.vnum 2, Val.vnum 2, Val.vnum 1, Val.vnum 1, Val.vnum 3].filterMap numVal)).map
          jsToFixed2
      = some 2
    ∧ some (1 : ℚ) ≠ some (2 : ℚ) := by
  refine ⟨?_, ?_, by norm_num⟩
  · rw [calculateStatistics_mode _ (by decide) (by decide)]
    have hms : modeScan
        (([Val.vnum 2, Val.vnum 2, Val.vnum 1, Val.vnum 1,
          Val.vnum 3].filterMap numVal).insertionSort (· ≤ ·)) = some 1 := by decide
    rw [hms]
    norm_num [jsToFixed2]
  · have hms2 : modeScan
        ([Val.vnum 2, Val.vnum 2, Val.vnum 1, Val.vnum 1,
          Val.vnum 3].filterMap numVal) = some 2 := by decide
    rw [hms2]
    norm_num [jsToFixed2]

/-! ### Lemmas: the heap model (claim C9) -/

theorem Heap.read_alloc {α : Type} (h : Heap α) (a : List α) :
    (h.alloc a).2.read (h.alloc a).1 = a := by
  simp [Heap.alloc, Heap.read, List.getElem?_concat_length]

theorem Heap.read_alloc_lt {α : Type} (h : Heap α) (a : List α) (r : ℕ)
    (hr : r < h.arrays.length) : (h.alloc a).2.read r = h.read r := by
  simp [Heap.alloc, Heap.read, List.getElem?_append_left hr]

theorem Heap.read_write_self {α : Type} (h : Heap α) (rr : ℕ) (a : List α)
    (hrr : rr < h.arrays.length) : (h.write rr a).read rr = a := by
  simp [Heap.write, Heap.read, List.getElem?_set_self hrr]

theorem Heap.read_write_ne {α : Type} (h : Heap α) (rr : ℕ) (a : List α) (r : ℕ)
    (hne : rr ≠ r) : (h.write rr a).read r = h.read r := by
  simp [Heap.write, Heap.read, List.getElem?_set_ne hne]

theorem filterMap_numVal_map_vnum (l : List ℚ) : (l.map Val.vnum).filterMap numVal = l := by
  induction l with
  | nil => rfl
  | cons x t ih => simp [numVal, ih]

/-- C9: neither the Statistics Calculator nor the Chart Series Builder
mutates its input.  In the heap model, the Calculator's only write goes to
the freshly allocated `numbers` array (the in-place sort), so the input
array behind any valid reference is unchanged and the heap run computes
the same result as the pure function; the Builder performs no
array-mutating operation at all, so its heap action is the identity. -/
theorem claim_no_mutation (hV : Heap Val) (r : ℕ) (hr : r < hV.arrays.length)
    (hR : Heap Row) (q : ℕ) (xcol ycol : String) (t : ChartType) :
    ((calculateStatisticsH r hV).2.read r = hV.read r)
    ∧ ((calculateStatisticsH r hV).1 = calculateStatistics (hV.read r))
    ∧ ((processChartDataH q xcol ycol t hR).2 = hR)
    ∧ ((processChartDataH q xcol ycol t hR).1 =
        processChartData (hR.read q) xcol ycol t) := by
  have hA := Heap.read_alloc hV (((hV.read r).filterMap numVal).map Val.vnum)
  have hrn : (hV.alloc (((hV.read r).filterMap numVal).map Val.vnum)).1
      = hV.arrays.length := rfl
  have hlt : (hV.alloc (((hV.read r).filterMap numVal).map Val.vnum)).1 <
      (hV.alloc (((hV.read r).filterMap numVal).map Val.vnum)).2.arrays.length := by
    simp [Heap.alloc]
  have hne : (hV.alloc (((hV.read r).filterMap numVal).map Val.vnum)).1 ≠ r := by
    rw [hrn]; omega
  refine ⟨?_, ?_, rfl, rfl⟩
  · simp only [calculateStatisticsH]
    by_cases h0 : (hV.read r).length = 0
    · simp [h0]
    · simp only [h0, if_false]
      rw [hA]
      by_cases h1c : ((((hV.read r).filterMap numVal).map Val.vnum) : List Val).length = 0
      · simp only [h1c, if_pos rfl]
        exact Heap.read_alloc_lt hV _ r hr
      · simp only [h1c, if_false]
        rw [Heap.read_write_ne _ _ _ _ hne, Heap.read_alloc_lt hV _ r hr]
  · simp only [calculateStatisticsH, calculateStatistics]
    by_cases h0 : (hV.read r).length = 0
    · simp [h0]
    · simp only [h0, if_false]
      rw [hA, filterMap_numVal_map_vnum]
      by_cases h1c : ((hV.read r).filterMap numVal).length = 0
      · simp [h1c]
      · have h1c2 : ¬((((hV.read r).filterMap numVal).map Val.vnum) : List Val).length = 0 := by
          simpa using h1c
        simp only [h1c, h1c2, if_false, List.length_map]
        rw [Heap.read_write_self _ _ _ hlt, filterMap_numVal_map_vnum]

/-- Witness for C9 at a concrete one-array heap holding unsorted numbers. -/
theorem claim_no_mutation_witness :
    ((calculateStatisticsH 0 ⟨[[Val.vnum 3, Val.vnum 1, Val.vnum 2]]⟩).2.read 0 =
      Heap.read ⟨[[Val.vnum 3, Val.vnum 1, Val.vnum 2]]⟩ 0)
    ∧ ((processChartDataH 0 "c" "v" ChartType.bar (⟨[]⟩ : Heap Row)).2 = ⟨[]⟩) :=
  ⟨(claim_no_mutation ⟨[[Val.vnum 3, Val.vnum 1, Val.vnum 2]]⟩ 0 (by decide)
      ⟨[]⟩ 0 "c" "v" ChartType.bar).1,
   (claim_no_mutation ⟨[[Val.vnum 3, Val.vnum 1, Val.vnum 2]]⟩ 0 (by decide)
      ⟨[]⟩ 0 "c" "v" ChartType.bar).2.2.1⟩

/-! ### Lemmas: rounding (claim C8) -/

/-- Round-half-away-from-zero at the 2nd decimal, as the specification
words the rounding rule: round the magnitude of 100·q to the nearest
integer, half up, then reapply the sign and divide by 100. -/
def roundHalfAwayFromZero2 (q : ℚ) : ℚ :=
  ((q.num.sign * ⌊100 * |q| + 1 / 2⌋ : ℤ) : ℚ) / 100

theorem jsToFixed2_eq_roundHalfAwayFromZero2 (q : ℚ) :
    jsToFixed2 q = roundHalfAwayFromZero2 q := by
  unfold jsToFixed2 roundHalfAwayFromZero2
  rcases lt_trichotomy q 0 with hq | hq | hq
  · rw [if_pos hq, abs_of_neg hq, Int.sign_eq_neg_one_iff_neg.mpr (Rat.num_neg.mpr hq)]
    push_cast
    ring
  · subst hq
    norm_num
  · rw [if_neg (not_lt.mpr hq.le), abs_of_pos hq,
      Int.sign_eq_one_iff_pos.mpr (Rat.num_pos.mpr hq)]
    push_cast
    ring

theorem den_100_jsToFixed2 (q : ℚ) : (100 * jsToFixed2 q).den = 1 := by
  unfold jsToFixed2
  by_cases hq : q < 0
  · rw [if_pos hq]
    have h : (100 : ℚ) * -(((⌊100 * (-q) + 1 / 2⌋ : ℤ) : ℚ) / 100) =
        ((-⌊100 * (-q) + 1 / 2⌋ : ℤ) : ℚ) := by
      push_cast
      ring
    rw [h, Rat.den_intCast]
  · rw [if_neg hq]
    have h : (100 : ℚ) * (((⌊100 * q + 1 / 2⌋ : ℤ) : ℚ) / 100) =
        ((⌊100 * q + 1 / 2⌋ : ℤ) : ℚ) := by
      rw [mul_comm, div_mul_cancel₀ _ (by norm_num : (100 : ℚ) ≠ 0)]
    rw [h, Rat.den_intCast]

theorem den_100_sqrtToFixed2 (q : ℚ) : (100 * sqrtToFixed2 q).den = 1 := by
  simp only [sqrtToFixed2]
  rw [mul_comm, div_mul_cancel₀ _ (by norm_num : (100 : ℚ) ≠ 0), Rat.den_natCast]

/-- On an exact square, the standard-deviation rounding agrees with the
`toFixed` rounding of the exact root: the same rule serves all five
outputs. -/
theorem sqrtToFixed2_sq (w : ℚ) (hw : 0 ≤ w) : sqrtToFixed2 (w * w) = jsToFixed2 w := by
  have hnum : 0 ≤ w.num := Rat.num_nonneg.mpr hw
  have hB : 0 < w.den := w.den_pos
  have hAcast : (w.num.toNat : ℤ) = w.num := Int.toNat_of_nonneg hnum
  have hqnum : (w * w).num.toNat = w.num.toNat * w.num.toNat := by
    have h1 : (w * w).num = (w.num.toNat : ℤ) * (w.num.toNat : ℤ) := by
      rw [Rat.mul_self_num, hAcast]
    have h2 : ((w.num.toNat : ℤ) * (w.num.toNat : ℤ)) =
        ((w.num.toNat * w.num.toNat : ℕ) : ℤ) := by
      push_cast
      ring
    rw [h1, h2, Int.toNat_natCast]
  have hqden : (w * w).den = w.den * w.den := Rat.mul_self_den w
  have hsqrt : Nat.sqrt (40000 * (w.num.toNat * w.num.toNat) * (w.den * w.den))
      = 200 * w.num.toNat * w.den := by
    have h : 40000 * (w.num.toNat * w.num.toNat) * (w.den * w.den)
        = (200 * w.num.toNat * w.den) * (200 * w.num.toNat * w.den) := by ring
    rw [h, Nat.sqrt_eq]
  have hdiv : (200 * w.num.toNat * w.den) / (w.den * w.den)
      = 200 * w.num.toNat / w.den := Nat.mul_div_mul_right _ _ hB
  have hLHS : sqrtToFixed2 (w * w) =
      (((200 * w.num.toNat / w.den + 1) / 2 : ℕ) : ℚ) / 100 := by
    simp only [sqrtToFixed2, hqnum, hqden, hsqrt, hdiv]
  have hwAB : w = (w.num.toNat : ℚ) / (w.den : ℚ) := by
    conv_lhs => rw [← Rat.num_div_den w, ← hAcast]
    push_cast
    ring
  have hden0 : ((w.den : ℕ) : ℚ) ≠ 0 := Nat.cast_ne_zero.mpr hB.ne'
  have h200w : (200 : ℚ) * w = ((200 * w.num.toNat : ℕ) : ℚ) / ((w.den : ℕ) : ℚ) := by
    conv_lhs => rw [hwAB]
    field_simp
  have hfloor_nat : ⌊(100 : ℚ) * w + 1 / 2⌋₊ = (200 * w.num.toNat / w.den + 1) / 2 := by
    have e1 : (100 : ℚ) * w + 1 / 2 = ((200 : ℚ) * w + 1) / ((2 : ℕ) : ℚ) := by
      push_cast
      ring
    rw [e1, Nat.floor_div_nat]
    have e3 : ⌊(200 : ℚ) * w + 1⌋₊ = ⌊(200 : ℚ) * w⌋₊ + 1 :=
      Nat.floor_add_one (mul_nonneg (by norm_num) hw)
    rw [e3, h200w, Nat.floor_div_eq_div]
  have hnn : (0 : ℚ) ≤ 100 * w + 1 / 2 := by
    have := mul_nonneg (by norm_num : (0 : ℚ) ≤ 100) hw
    linarith
  have hfloor_int : ⌊(100 : ℚ) * w + 1 / 2⌋
      = (((200 * w.num.toNat / w.den + 1) / 2 : ℕ) : ℤ) := by
    have h1 : ⌊(100 : ℚ) * w + 1 / 2⌋.toNat = (200 * w.num.toNat / w.den + 1) / 2 := by
      rw [Int.floor_toNat, hfloor_nat]
    rw [← h1, Int.toNat_of_nonneg (Int.floor_nonneg.mpr hnn)]
  rw [hLHS]
  unfold jsToFixed2
  rw [if_neg (not_lt.mpr hw), hfloor_int]
  simp only [Int.cast_natCast]

/-- Every successful Calculator result is the record of the five rounding
applications, with the statistic values as exact rationals. -/
theorem calculateStatistics_fields (data : List Val) (s : Stats)
    (h : calculateStatistics data = some s) :
    ∃ m med mo r v, s =
      { mean := jsToFixed2 m, median := jsToFixed2 med, mode := jsToFixed2 mo,
        range := jsToFixed2 r, standardDeviation := sqrtToFixed2 v } := by
  by_cases h0 : data.length = 0
  · exfalso
    simp [calculateStatistics, h0] at h
  · by_cases h1 : (data.filterMap numVal).length = 0
    · exfalso
      simp [calculateStatistics, h0, h1] at h
    · simp only [calculateStatistics, h0, h1, if_false] at h
      exact ⟨_, _, _, _, _, (Option.some.inj h).symm⟩

/-- C8: every one of the five outputs of the Statistics Calculator is
rounded to exactly 2 decimal places (100 times the output is an integer),
the four directly rounded outputs all pass through the single rounding
function `jsToFixed2`, that function implements round-half-away-from-zero
at the 2nd decimal, and the standard-deviation rounding agrees with the
same rule on the exact root whenever the variance is an exact square (the
root is irrational otherwise, so no tie can arise there). -/
theorem claim_rounding (q w : ℚ) (hw : 0 ≤ w) (data : List Val) (s : Stats)
    (h : calculateStatistics data = some s) :
    jsToFixed2 q = roundHalfAwayFromZero2 q
    ∧ sqrtToFixed2 (w * w) = jsToFixed2 w
    ∧ (∃ m med mo r v, s =
        { mean := jsToFixed2 m, median := jsToFixed2 med, mode := jsToFixed2 mo,
          range := jsToFixed2 r, standardDeviation := sqrtToFixed2 v })
    ∧ (100 * s.mean).den = 1 ∧ (100 * s.median).den = 1 ∧ (100 * s.mode).den = 1
    ∧ (100 * s.range).den = 1 ∧ (100 * s.standardDeviation).den = 1 := by
  obtain ⟨m, med, mo, r, v, hs⟩ := calculateStatistics_fields data s h
  subst hs
  exact ⟨jsToFixed2_eq_roundHalfAwayFromZero2 q, sqrtToFixed2_sq w hw,
    ⟨m, med, mo, r, v, rfl⟩, den_100_jsToFixed2 m, den_100_jsToFixed2 med,
    den_100_jsToFixed2 mo, den_100_jsToFixed2 r, den_100_sqrtToFixed2 v⟩

/-- Witness for C8 at the negative tie -1/8 (the code rounds it to -0.13,
away from zero) and the concrete Calculator run on [2]. -/
theorem claim_rounding_witness :
    jsToFixed2 (-(1 / 8)) = roundHalfAwayFromZero2 (-(1 / 8))
    ∧ sqrtToFixed2 (2 * 2) = jsToFixed2 2
    ∧ (∃ m, (2 : ℚ) = jsToFixed2 m) := by
  have h := claim_rounding (-(1 / 8)) 2 (by norm_num) [Val.vnum 2]
    { mean := 2, median := 2, mode := 2, range := 0, standardDeviation := 0 }
    calculateStatistics_singleton2
  refine ⟨h.1, h.2.1, ?_⟩
  obtain ⟨m, med, mo, r, v, hs⟩ := h.2.2.1
  exact ⟨m, congrArg Stats.mean hs⟩
